import Mathlib

/-!
Verification of the rabbit-eye scan-and-diff engine.

This file gives a shallow embedding of the repository's change-tracking
core and proves (or refutes) the specified properties about it:

* `DefaultTableState` with `set_row` and `drain`
  (packages/rabbit-eye/src/state.rs, module `state_change`);
* the engine-level `State` (id to hash map, optional table hash) and
  `check_and_report_files` together with the filesystem walker
  `FileChangeDetector::rowhash` (packages/filesystem/src/fs.rs);
* the `AppLifetime` three-tier shutdown ladder
  (packages/rabbit-eye/src/engine.rs).

Rust `HashMap`s are embedded as association lists (keys unique in every
state the program builds); `HashSet` iteration order, unspecified in Rust,
is fixed here to the underlying list order, which is one of the behaviours
the specification permits.  Machine `u64` values are embedded as `Nat`
(no arithmetic that could overflow occurs in the embedded code paths).
-/

section TableState

variable {K H : Type} [DecidableEq K] [DecidableEq H]

/-- The `NotifiedState` enum of state.rs: what `set_row` recorded for one
key during the current scan. -/
inductive NotifiedState (K : Type) where
  | None (k : K)
  | New (k : K)
  | Update (k : K)
  | Delete (k : K)
deriving DecidableEq, Repr

/-- The `StateChange` enum of state.rs: the output variant emitted by
`drain` (the internal `None` tag is never emitted). -/
inductive StateChange (K : Type) where
  | New (k : K)
  | Update (k : K)
  | Delete (k : K)
deriving DecidableEq, Repr

/-- Whether an emitted change is a deletion. -/
def StateChange.isDelete : StateChange K → Bool
  | .Delete _ => true
  | .New _ => false
  | .Update _ => false

/-- Key of a `NotifiedState` entry. -/
def NotifiedState.key : NotifiedState K → K
  | .None k => k
  | .New k => k
  | .Update k => k
  | .Delete k => k

/-- `DefaultTableState` of state.rs: the optional table hash, the row map
(`HashMap<Key, Hash>`, embedded as an association list with unique keys)
and the pending change log (`Vec<NotifiedState<Key>>`). -/
structure DefaultTableState (K H : Type) where
  tablehash : Option Nat
  rows : List (K × H)
  changes : List (NotifiedState K)
deriving Repr

/-- `HashMap::get` on the association-list embedding: value stored at a
key, if any. -/
def lookupRow : List (K × H) → K → Option H
  | [], _ => none
  | (k0, v) :: rest, k => if k = k0 then some v else lookupRow rest k

/-- Overwrite the stored value of a present key (the `*value = hash`
branch of `set_row`). -/
def updateRow : List (K × H) → K → H → List (K × H)
  | [], _, _ => []
  | (k0, v) :: rest, k, h =>
      if k = k0 then (k0, h) :: rest else (k0, v) :: updateRow rest k h

/-- `DefaultTableState::new`. -/
def DefaultTableState.new (th : Option Nat) (rows : List (K × H)) :
    DefaultTableState K H :=
  ⟨th, rows, []⟩

/-- `Default::default` for `DefaultTableState`: no table hash, empty rows. -/
def DefaultTableState.defaultState : DefaultTableState K H :=
  DefaultTableState.new none []

/-- `DefaultTableState::set_row` of state.rs: classify the observation of
`(key, hash)` against `rows` and push the verdict on the change log. -/
def DefaultTableState.set_row (s : DefaultTableState K H) (key : K) (hash : H) :
    DefaultTableState K H :=
  match lookupRow s.rows key with
  | some value =>
      if value = hash then
        { s with changes := s.changes ++ [NotifiedState.None key] }
      else
        { s with rows := updateRow s.rows key hash,
                 changes := s.changes ++ [NotifiedState.Update key] }
  | none =>
      { s with changes := s.changes ++ [NotifiedState.New key],
               rows := s.rows ++ [(key, hash)] }

/-- The `for seen in self.changes` loop of `drain`: walk the change log in
order, emitting `New`/`Update`/`Delete` and suppressing `None`, removing
each key from the `unseen` set (embedded as a list; removal is `filter`).
Returns the emitted changes and the final `unseen` set. -/
def drainLoop : List (NotifiedState K) → List K →
    List (StateChange K) × List K
  | [], unseen => ([], unseen)
  | NotifiedState.Delete k :: cs, unseen =>
      let r := drainLoop cs (unseen.filter (fun x => decide (x ≠ k)))
      (StateChange.Delete k :: r.1, r.2)
  | NotifiedState.New k :: cs, unseen =>
      let r := drainLoop cs (unseen.filter (fun x => decide (x ≠ k)))
      (StateChange.New k :: r.1, r.2)
  | NotifiedState.Update k :: cs, unseen =>
      let r := drainLoop cs (unseen.filter (fun x => decide (x ≠ k)))
      (StateChange.Update k :: r.1, r.2)
  | NotifiedState.None k :: cs, unseen =>
      drainLoop cs (unseen.filter (fun x => decide (x ≠ k)))

/-- `DefaultTableState::drain` of state.rs: seed `unseen` with every row
key when `delete_remainder` is set, replay the change log, then append a
`Delete` for each key left in `unseen`. -/
def DefaultTableState.drain (s : DefaultTableState K H)
    (delete_remainder : Bool) : List (StateChange K) :=
  let unseen0 := if delete_remainder then s.rows.map Prod.fst else []
  let r := drainLoop s.changes unseen0
  r.1 ++ r.2.map StateChange.Delete

/-- A scan: a finite sequence of `set_row(k, h)` calls applied in order. -/
def applyCalls (calls : List (K × H)) (s : DefaultTableState K H) :
    DefaultTableState K H :=
  calls.foldl (fun s kh => s.set_row kh.1 kh.2) s

/-- The notifications a scan pushes on the change log, computed against
the evolving row map (proof helper mirroring the branch structure of
`set_row`). -/
def scanNotifications : List (K × H) → List (K × H) → List (NotifiedState K)
  | _, [] => []
  | rows, (k, h) :: rest =>
      match lookupRow rows k with
      | none => NotifiedState.New k :: scanNotifications (rows ++ [(k, h)]) rest
      | some v =>
          if v = h then NotifiedState.None k :: scanNotifications rows rest
          else NotifiedState.Update k :: scanNotifications (updateRow rows k h) rest

/-- The row map a scan leaves behind (proof helper mirroring the branch
structure of `set_row`). -/
def scanRows : List (K × H) → List (K × H) → List (K × H)
  | rows, [] => rows
  | rows, (k, h) :: rest =>
      match lookupRow rows k with
      | none => scanRows (rows ++ [(k, h)]) rest
      | some v =>
          if v = h then scanRows rows rest
          else scanRows (updateRow rows k h) rest

/-- Specification-side classification of a single `set_row` call, written
from the spec's words: a key not in `rows` is newly inserted (`New`), a
key stored with the same hash is unchanged (`None`), a key stored with a
different hash is updated (`Update`). -/
def setRowClassifySpec (rows : List (K × H)) (k : K) (h : H) :
    NotifiedState K :=
  match lookupRow rows k with
  | none => NotifiedState.New k
  | some v => if v = h then NotifiedState.None k else NotifiedState.Update k

/-- Specification-side emitted-changes sequence for a clean scan, written
from the spec's words: in observation order, `New(k)` for each call that
newly inserts its key and `Update(k)` for each call whose stored hash
differed; unchanged observations emit nothing. -/
def drainTrueSpecObserved : List (K × H) → List (K × H) →
    List (StateChange K)
  | _, [] => []
  | rows, (k, h) :: rest =>
      match lookupRow rows k with
      | none => StateChange.New k :: drainTrueSpecObserved (rows ++ [(k, h)]) rest
      | some v =>
          if v = h then drainTrueSpecObserved rows rest
          else StateChange.Update k :: drainTrueSpecObserved (updateRow rows k h) rest

/-- Specification-side trailing deletions for a clean scan: the keys
previously stored in the table but never set during the scan. -/
def drainTrueSpecDeleted (rows0 : List (K × H)) (calls : List (K × H)) :
    List K :=
  (rows0.map Prod.fst).filter (fun k => decide (¬ k ∈ calls.map Prod.fst))

/-- Map a logged notification to the change `drain` emits for it, if any
(`None` is suppressed). -/
def NotifiedState.toStateChange : NotifiedState K → Option (StateChange K)
  | .None _ => none
  | .New k => some (StateChange.New k)
  | .Update k => some (StateChange.Update k)
  | .Delete k => some (StateChange.Delete k)

/-- `HashMap::remove` on the association-list embedding. -/
def eraseRow : List (K × H) → K → List (K × H)
  | [], _ => []
  | (k0, v) :: rest, k => if k = k0 then rest else (k0, v) :: eraseRow rest k

end TableState

section EngineState

/-- The engine-level `State` of rabbit-eye state.rs: the optional
whole-set hash and the id-to-hash row map (`HashMap<u64, u64>`, embedded
as an association list with unique keys). -/
structure State where
  tablehash : Option Nat
  rowhash : List (Nat × Nat)
deriving DecidableEq, Repr

/-- `State::empty`: the only constructor of `State` in the source; the
table hash starts absent. -/
def State.empty : State := ⟨none, []⟩

/-- `State::table`. -/
def State.table (s : State) : Option Nat := s.tablehash

/-- `State::row`. -/
def State.row (s : State) (id : Nat) : Option Nat := lookupRow s.rowhash id

/-- `State::pop_row`: remove the row and return its stored hash, if any
(the mutation is made explicit as the second component). -/
def State.pop_row (s : State) (id : Nat) : Option Nat × State :=
  (lookupRow s.rowhash id, { s with rowhash := eraseRow s.rowhash id })

/-- `State::set_row`: `HashMap::insert` (overwrite if present, else add);
the table hash is never touched. -/
def State.set_row (s : State) (id : Nat) (hash : Nat) : State :=
  match lookupRow s.rowhash id with
  | some _ => { s with rowhash := updateRow s.rowhash id hash }
  | none => { s with rowhash := s.rowhash ++ [(id, hash)] }

/-- `State::drain`: yield every row and leave the map empty (the emptied
state is the second component). -/
def State.drainAll (s : State) : List (Nat × Nat) × State :=
  (s.rowhash, { s with rowhash := [] })

/-- States the program can actually build: `State::empty` plus the
mutating operations of the `State` impl. -/
inductive State.Reachable : State → Prop where
  | empty : State.Reachable State.empty
  | set_row {s : State} (id hash : Nat) :
      State.Reachable s → State.Reachable (s.set_row id hash)
  | pop_row {s : State} (id : Nat) :
      State.Reachable s → State.Reachable (s.pop_row id).2
  | drain {s : State} :
      State.Reachable s → State.Reachable s.drainAll.2

end EngineState

section Filesystem

/-- One filesystem object as the walker observes it: a file or a
directory, with its name (the final path component), its
`last_write_time`, and for a readable directory its entries.
`dirUnreadable` is a directory on which `tokio::fs::read_dir` reports an
I/O error. -/
inductive FsNode where
  | file (name : String) (mtime : Nat)
  | dir (name : String) (mtime : Nat) (entries : List FsNode)
  | dirUnreadable (name : String) (mtime : Nat)

mutual

/-- Structural size of a filesystem node (termination measure for the
walk). -/
def fsNodeSize : FsNode → Nat
  | .file _ _ => 1
  | .dirUnreadable _ _ => 1
  | .dir _ _ es => 1 + fsListSize es

/-- Structural size of a directory listing. -/
def fsListSize : List FsNode → Nat
  | [] => 0
  | e :: es => fsNodeSize e + fsListSize es

end

/-- `DirEntry::file_name`, converted to a string. -/
def FsNode.name : FsNode → String
  | .file n _ => n
  | .dir n _ _ => n
  | .dirUnreadable n _ => n

/-- `Metadata::last_write_time`. -/
def FsNode.mtime : FsNode → Nat
  | .file _ m => m
  | .dir _ m _ => m
  | .dirUnreadable _ m => m

/-- `Metadata::is_dir` (true for a directory whether or not it can later
be read). -/
def FsNode.isDir : FsNode → Bool
  | .file _ _ => false
  | .dir _ _ _ => true
  | .dirUnreadable _ _ => true

/-- `tokio::fs::read_dir` on a node: the listing of a readable directory,
`none` for an I/O error (unreadable directory, or a path that is not a
directory). -/
def readDirOf : FsNode → Option (List FsNode)
  | .dir _ _ es => some es
  | .file _ _ => none
  | .dirUnreadable _ _ => none

/-- `RowState` of rabbit-eye state.rs: a row id and its change hash. -/
structure RowState where
  id : Nat
  hash : Nat
deriving DecidableEq, Repr

/-- `FileChange` of fs.rs: the message payload for a changed file. -/
structure FileChange where
  path : String
  last_write_utc : Nat
deriving DecidableEq, Repr

/-- `FileChangeDetector` of fs.rs (its configuration fields). -/
structure FileChangeDetector where
  root : String
  recursive : Bool
  include_child_changes : Bool
deriving Repr

/-- `FileChangeDetector::new`. -/
def FileChangeDetector.new (root : String) : FileChangeDetector :=
  ⟨root, false, false⟩

/-- `FileChangeDetector::with_recursive` (combined with `build`). -/
def FileChangeDetector.with_recursive (d : FileChangeDetector) (r : Bool) :
    FileChangeDetector :=
  { d with recursive := r }

/-- `FileChangeDetector::with_child_changes` (combined with `build`). -/
def FileChangeDetector.with_child_changes (d : FileChangeDetector) (c : Bool) :
    FileChangeDetector :=
  { d with include_child_changes := c }

/-- `FileChangeDetector::tablehash`: always `None` in the source. -/
def FileChangeDetector.tablehash (_ : FileChangeDetector)
    (_cancelAt : Option Nat) : Option Nat :=
  none

/-- Cooperative cancellation, observed through `is_cancelled` checks: the
token fires just before the `c`-th check (`cancelAt = some c`), or never
(`none`).  `cnt` counts the checks made so far. -/
def isCancelledNow (cancelAt : Option Nat) (cnt : Nat) : Bool :=
  match cancelAt with
  | none => false
  | some c => decide (c ≤ cnt)

/-- `PathBuf::join` followed by `display`, modelled as slash-separated
concatenation. -/
def joinPath (root : String) (name : String) : String :=
  root ++ "/" ++ name

/-- Sum of the sizes of the directory nodes on the work stack (termination
measure for the walk). -/
def walkStackSize (stack : List (String × FsNode)) : Nat :=
  (stack.map fun p => fsNodeSize p.2).sum

/-- The inner `while let Some(file) = dir_files.next_entry()` loop of
`FileChangeDetector::rowhash`: per entry, check cancellation (breaking the
inner loop), push a recursive subdirectory on the work stack, classify the
entry against the prior `state` and record its row.  Returns the work
stack, the check counter and the accumulated rows. -/
def entryLoop (recursive : Bool) (hashFn : String → Nat) (st : State)
    (cancelAt : Option Nat) (root : String) :
    List FsNode → List (String × FsNode) → Nat →
    List (RowState × Option FileChange) →
    List (String × FsNode) × Nat × List (RowState × Option FileChange)
  | [], stack, cnt, rows => (stack, cnt, rows)
  | e :: es, stack, cnt, rows =>
      if isCancelledNow cancelAt cnt then (stack, cnt + 1, rows)
      else
        let path := e.name
        let full_name := joinPath root path
        let stack1 := if recursive && e.isDir then (full_name, e) :: stack else stack
        let file_hash := hashFn path
        let change_hash := e.mtime
        let row : RowState := ⟨file_hash, change_hash⟩
        let entry : RowState × Option FileChange :=
          match st.row file_hash with
          | some stored =>
              if stored = change_hash then (row, none)
              else (row, some ⟨full_name, change_hash⟩)
          | none => (row, some ⟨full_name, change_hash⟩)
        entryLoop recursive hashFn st cancelAt root es stack1 (cnt + 1)
          (rows ++ [entry])

/-- The work stack produced by the inner entry loop weighs at most the
entry list plus the incoming stack (every pushed node is one of the
entries). -/
def entryLoop_stack_bound (recursive : Bool) (hashFn : String → Nat)
    (st : State) (cancelAt : Option Nat) (root : String) :
    ∀ (es : List FsNode) (stack : List (String × FsNode)) (cnt : Nat)
      (rows : List (RowState × Option FileChange)),
      walkStackSize
          (entryLoop recursive hashFn st cancelAt root es stack cnt rows).1 ≤
        fsListSize es + walkStackSize stack := by
  intro es
  induction es with
  | nil =>
      intro stack cnt rows
      simp [entryLoop, fsListSize]
  | cons e es ih =>
      intro stack cnt rows
      by_cases hc : isCancelledNow cancelAt cnt = true
      · simp [entryLoop, hc, fsListSize]
      · simp only [entryLoop, hc]
        simp only [Bool.false_eq_true, if_false]
        refine le_trans (ih _ _ _) ?h
        simp only [fsListSize, walkStackSize]
        split
        · simp only [List.map_cons, List.sum_cons]
          omega
        · omega

/-- A readable directory's listing is smaller than the directory node. -/
def readDirOf_sizeOf :
    ∀ (node : FsNode) (es : List FsNode),
      readDirOf node = some es → fsListSize es < fsNodeSize node := by
  intro node es h
  cases node with
  | dir n m l =>
      simp [readDirOf] at h
      subst h
      simp [fsNodeSize]
  | file n m => simp [readDirOf] at h
  | dirUnreadable n m => simp [readDirOf] at h

/-- The outer `while let Some(root) = dir.pop()` loop of
`FileChangeDetector::rowhash`: pop a directory (checking cancellation,
which breaks the loop and returns the rows gathered so far), read its
listing — an I/O error propagates as a panic (`unwrap`) — and run the
entry loop.  The work stack is LIFO, as is the source's `Vec`.  The
first argument `n` is pure termination bookkeeping: a strict upper bound
on the stack weight, strictly decreasing at every iteration, whose zero
case is unreachable (the bound proof refutes it) — it does not alter the
loop's behaviour. -/
def rowhashWalkGo (recursive : Bool) (hashFn : String → Nat) (st : State)
    (cancelAt : Option Nat) :
    (n : Nat) → (stack : List (String × FsNode)) →
    walkStackSize stack < n → Nat → List (RowState × Option FileChange) →
    Except String (List (RowState × Option FileChange))
  | 0, _, hn, _, _ => absurd hn (Nat.not_lt_zero _)
  | _ + 1, [], _, _, rows => .ok rows
  | n + 1, (root, node) :: rest, hn, cnt, rows =>
      if isCancelledNow cancelAt cnt then .ok rows
      else
        match hrd : readDirOf node with
        | none => .error "read_dir failed: unwrap on an Err value panicked"
        | some entries =>
            rowhashWalkGo recursive hashFn st cancelAt n
              (entryLoop recursive hashFn st cancelAt root entries rest
                (cnt + 1) rows).1
              (by
                have hb := entryLoop_stack_bound recursive hashFn st cancelAt
                  root entries rest (cnt + 1) rows
                have hs := readDirOf_sizeOf node entries hrd
                simp only [walkStackSize, List.map_cons, List.sum_cons] at hn
                simp only [walkStackSize] at hb ⊢
                omega)
              (entryLoop recursive hashFn st cancelAt root entries rest
                (cnt + 1) rows).2.1
              (entryLoop recursive hashFn st cancelAt root entries rest
                (cnt + 1) rows).2.2

/-- The walk entry point: run the loop with its initial (trivially valid)
stack-weight bound. -/
def rowhashWalk (recursive : Bool) (hashFn : String → Nat) (st : State)
    (cancelAt : Option Nat) (stack : List (String × FsNode)) (cnt : Nat)
    (rows : List (RowState × Option FileChange)) :
    Except String (List (RowState × Option FileChange)) :=
  rowhashWalkGo recursive hashFn st cancelAt (walkStackSize stack + 1) stack
    (Nat.lt_succ_self _) cnt rows

/-- `FileChangeDetector::rowhash`: walk the tree rooted at the detector's
root.  `rootNode` is the directory tree the operating system serves under
`root`; `hashFn` is `std::hash::DefaultHasher` applied to a file-name
string (opaque, so kept as a parameter). -/
def FileChangeDetector.rowhash (d : FileChangeDetector)
    (hashFn : String → Nat) (rootNode : FsNode) (st : State)
    (cancelAt : Option Nat) :
    Except String (List (RowState × Option FileChange)) :=
  rowhashWalk d.recursive hashFn st cancelAt [(d.root, rootNode)] 0 []

end Filesystem

section Report

/-- `u64::to_be_bytes`: the eight big-endian bytes of a 64-bit value. -/
def bytesBE (n : Nat) : List Nat :=
  (List.range 8).map fun i => n % 2 ^ 64 / 2 ^ (8 * (7 - i)) % 256

/-- UTF-8 encoding of one character (by code-point range, as in the
standard encoder). -/
def utf8EncodeCharNat (c : Char) : List Nat :=
  let n := c.toNat
  if n < 128 then [n]
  else if n < 2048 then [192 + n / 64, 128 + n % 64]
  else if n < 65536 then
    [224 + n / 4096, 128 + n / 64 % 64, 128 + n % 64]
  else
    [240 + n / 262144, 128 + n / 4096 % 64, 128 + n / 64 % 64, 128 + n % 64]

/-- `String::into_bytes`: the UTF-8 bytes of a string. -/
def utf8Bytes (s : String) : List Nat :=
  (s.data.map utf8EncodeCharNat).join

/-- The `state.table().map_or_else(|| false, |t| t == tablehash)` fast
path of `check_and_report_files`, guarded by
`if let Some(tablehash) = changedetector.tablehash(..)`. -/
def tablehashSkip (detTable : Option Nat) (s : State) : Bool :=
  match detTable with
  | some th =>
      match s.table with
      | some t => decide (t = th)
      | none => false
  | none => false

/-- The `for (row, message) in changes` loop of `check_and_report_files`:
rebuild the fresh state with `set_row`, pop the row from the former state,
and publish the change message's path bytes when the row is new or its
hash differs. -/
def reportLoop (former newState : State) (pub : List (List Nat)) :
    List (RowState × Option FileChange) → State × State × List (List Nat)
  | [] => (former, newState, pub)
  | (row, message) :: rest =>
      let newState1 := newState.set_row row.id row.hash
      let popped := former.pop_row row.id
      let changed : Bool :=
        match popped.1 with
        | none => true
        | some h => decide (h ≠ row.hash)
      match message with
      | some m =>
          if changed then
            reportLoop popped.2 newState1 (pub ++ [utf8Bytes m.path]) rest
          else reportLoop popped.2 newState1 pub rest
      | none => reportLoop popped.2 newState1 pub rest

/-- `check_and_report_files` of fs.rs, generalised over the detector's
table hash (the concrete detector always reports `none`): skip when the
detector's table hash matches the stored one; otherwise run `rowhash`,
replace the stored state by `State::empty`, rebuild it row by row while
publishing path bytes for changed rows, then publish the big-endian id
bytes of every row left in the former state.  Returns the new state and
the published message bodies. -/
def checkAndReportWith (detTable : Option Nat) (hashFn : String → Nat)
    (rootName : String) (rootNode : FsNode) (cancelAt : Option Nat)
    (state : State) : Except String (State × List (List Nat)) :=
  let changedetector :=
    ((FileChangeDetector.new rootName).with_recursive true).with_child_changes
      true
  if tablehashSkip detTable state then .ok (state, [])
  else
    match changedetector.rowhash hashFn rootNode state cancelAt with
    | .error e => .error e
    | .ok changes =>
        let r := reportLoop state State.empty [] changes
        .ok (r.2.1, r.2.2 ++ r.1.drainAll.1.map fun p => bytesBE p.1)

/-- `check_and_report_files` proper: the detector's `tablehash` is `None`. -/
def check_and_report_files (hashFn : String → Nat) (rootName : String)
    (rootNode : FsNode) (cancelAt : Option Nat) (state : State) :
    Except String (State × List (List Nat)) :=
  checkAndReportWith
    ((((FileChangeDetector.new rootName).with_recursive true).with_child_changes
        true).tablehash cancelAt)
    hashFn rootName rootNode cancelAt state

end Report

section Lifetime

/-- Modelled from the spec: the `CancellationToken` implementation
(`crate::sync` / the runtime library) is not under src/.  The three
tokens of `AppLifetime::start` in engine.rs are
`abort = CancellationToken::new()`, `graceful = abort.child_token()`,
`natural = graceful.child_token()`; each token carries a one-shot local
cancel flag, and the three flags below are those local flags. -/
structure LifetimeTokens where
  abortFlag : Bool
  gracefulFlag : Bool
  naturalFlag : Bool
deriving DecidableEq, Repr

/-- `abort.is_cancelled()`: the root token sees only its own flag. -/
def abortCancelled (t : LifetimeTokens) : Bool :=
  t.abortFlag

/-- Modelled from the spec: a child token's cancelled state is the
logical OR of its own local flag and its parent's.  `graceful` is a child
of `abort`. -/
def gracefulCancelled (t : LifetimeTokens) : Bool :=
  t.gracefulFlag || abortCancelled t

/-- Modelled from the spec: `natural` is a child of `graceful`. -/
def naturalCancelled (t : LifetimeTokens) : Bool :=
  t.naturalFlag || gracefulCancelled t

/-- Token state when `AppLifetime::start` creates the three tokens:
nothing cancelled. -/
def ladderStart : LifetimeTokens := ⟨false, false, false⟩

/-- Token state after the supervisor's `ctrlc_natural.cancel()` (step 1
of the shutdown ladder in engine.rs). -/
def ladderAfterNatural : LifetimeTokens :=
  { ladderStart with naturalFlag := true }

/-- Token state after the supervisor's `ctrlc_graceful.cancel()` (step 2
of the shutdown ladder). -/
def ladderAfterGraceful : LifetimeTokens :=
  { ladderAfterNatural with gracefulFlag := true }

/-- Token state after the supervisor's `ctrlc_abort.cancel()` (step 3 of
the shutdown ladder). -/
def ladderAfterAbort : LifetimeTokens :=
  { ladderAfterGraceful with abortFlag := true }

/-- The supervisor task of `AppLifetime::start`, as the sequence of token
states it passes through after the shutdown signal fires: it cancels
`natural`, then `graceful`, then `abort`, in that order (the intervening
bounded sleeps do not change any flag). -/
def ladderTrace : List LifetimeTokens :=
  [ladderStart, ladderAfterNatural, ladderAfterGraceful, ladderAfterAbort]

end Lifetime

section Scenarios

/-- A concrete instantiation of the opaque `DefaultHasher` parameter for
the S4 scenario: the names `a`, `b`, `c` hash to the ids `1`, `2`, `3`
stored in the prior state. -/
def hasherABC : String → Nat :=
  fun s => if s = "a" then 1 else if s = "b" then 2 else 3

end Scenarios

section TableStateProofs

variable {K H : Type} [DecidableEq K] [DecidableEq H]

theorem drainLoop_fst (cs : List (NotifiedState K)) :
    ∀ u : List K, (drainLoop cs u).1 = cs.filterMap NotifiedState.toStateChange := by
  induction cs with
  | nil => intro u; simp [drainLoop]
  | cons c cs ih =>
      intro u
      cases c <;> simp [drainLoop, NotifiedState.toStateChange, ih]

theorem drainLoop_snd (cs : List (NotifiedState K)) :
    ∀ u : List K,
      (drainLoop cs u).2 =
        u.filter (fun k => decide (¬ k ∈ cs.map NotifiedState.key)) := by
  induction cs with
  | nil => intro u; simp [drainLoop]
  | cons c cs ih =>
      intro u
      have step :
          ∀ k0 : K,
            (u.filter (fun x => decide (x ≠ k0))).filter
                (fun k => decide (¬ k ∈ cs.map NotifiedState.key)) =
              u.filter
                (fun k => decide (¬ k ∈ k0 :: cs.map NotifiedState.key)) := by
        intro k0
        rw [List.filter_filter]
        refine List.filter_congr ?h
        intro x _
        by_cases hx : x = k0
        · subst hx; simp
        · by_cases hm : x ∈ cs.map NotifiedState.key <;> simp [hx, hm]
      cases c with
      | None k0 =>
          show (drainLoop cs (u.filter fun x => decide (x ≠ k0))).2 = _
          rw [ih, step k0]
          rfl
      | New k0 =>
          show (drainLoop cs (u.filter fun x => decide (x ≠ k0))).2 = _
          rw [ih, step k0]
          rfl
      | Update k0 =>
          show (drainLoop cs (u.filter fun x => decide (x ≠ k0))).2 = _
          rw [ih, step k0]
          rfl
      | Delete k0 =>
          show (drainLoop cs (u.filter fun x => decide (x ≠ k0))).2 = _
          rw [ih, step k0]
          rfl

theorem updateRow_map_fst (rows : List (K × H)) (k : K) (h : H) :
    (updateRow rows k h).map Prod.fst = rows.map Prod.fst := by
  induction rows with
  | nil => simp [updateRow]
  | cons p rest ih =>
      obtain ⟨k0, v⟩ := p
      by_cases hk : k = k0 <;> simp [updateRow, hk, ih]

theorem lookupRow_append_of_none (rows : List (K × H)) (k : K) (h : H)
    (hnone : lookupRow rows k = none) :
    lookupRow (rows ++ [(k, h)]) k = some h := by
  induction rows with
  | nil => simp [lookupRow]
  | cons p rest ih =>
      obtain ⟨k0, v⟩ := p
      by_cases hk : k = k0
      · simp [lookupRow, hk] at hnone
      · simp [lookupRow, hk] at hnone ⊢
        exact ih hnone

theorem lookupRow_updateRow_self (rows : List (K × H)) (k : K) (h : H) (v : H)
    (hsome : lookupRow rows k = some v) :
    lookupRow (updateRow rows k h) k = some h := by
  induction rows with
  | nil => simp [lookupRow] at hsome
  | cons p rest ih =>
      obtain ⟨k0, v0⟩ := p
      by_cases hk : k = k0
      · simp [lookupRow, updateRow, hk]
      · simp [lookupRow, updateRow, hk] at hsome ⊢
        exact ih hsome

theorem applyCalls_changes (calls : List (K × H)) :
    ∀ s : DefaultTableState K H,
      (applyCalls calls s).changes =
        s.changes ++ scanNotifications s.rows calls := by
  induction calls with
  | nil => intro s; simp [applyCalls, scanNotifications]
  | cons c cs ih =>
      intro s
      obtain ⟨k, h⟩ := c
      have h1 : applyCalls ((k, h) :: cs) s = applyCalls cs (s.set_row k h) := rfl
      rw [h1, ih]
      cases hl : lookupRow s.rows k with
      | none =>
          simp [DefaultTableState.set_row, hl, scanNotifications]
      | some v =>
          by_cases hv : v = h
          · simp [DefaultTableState.set_row, hl, hv, scanNotifications]
          · simp [DefaultTableState.set_row, hl, hv, scanNotifications]

theorem applyCalls_rows (calls : List (K × H)) :
    ∀ s : DefaultTableState K H,
      (applyCalls calls s).rows = scanRows s.rows calls := by
  induction calls with
  | nil => intro s; simp [applyCalls, scanRows]
  | cons c cs ih =>
      intro s
      obtain ⟨k, h⟩ := c
      have h1 : applyCalls ((k, h) :: cs) s = applyCalls cs (s.set_row k h) := rfl
      rw [h1, ih]
      cases hl : lookupRow s.rows k with
      | none => simp [DefaultTableState.set_row, hl, scanRows]
      | some v =>
          by_cases hv : v = h
          · simp [DefaultTableState.set_row, hl, hv, scanRows]
          · simp [DefaultTableState.set_row, hl, hv, scanRows]

theorem scanNotifications_keys (calls : List (K × H)) :
    ∀ rows : List (K × H),
      (scanNotifications rows calls).map NotifiedState.key =
        calls.map Prod.fst := by
  induction calls with
  | nil => intro rows; simp [scanNotifications]
  | cons c cs ih =>
      intro rows
      obtain ⟨k, h⟩ := c
      cases hl : lookupRow rows k with
      | none => simp [scanNotifications, hl, NotifiedState.key, ih]
      | some v =>
          by_cases hv : v = h
          · simp [scanNotifications, hl, hv, NotifiedState.key, ih]
          · simp [scanNotifications, hl, hv, NotifiedState.key, ih]

theorem scanNotifications_no_delete (calls : List (K × H)) :
    ∀ (rows : List (K × H)) (k : K),
      NotifiedState.Delete k ∉ scanNotifications rows calls := by
  induction calls with
  | nil => intro rows k; simp [scanNotifications]
  | cons c cs ih =>
      intro rows k
      obtain ⟨k0, h0⟩ := c
      cases hl : lookupRow rows k0 with
      | none => simp [scanNotifications, hl, ih]
      | some v =>
          by_cases hv : v = h0
          · simp [scanNotifications, hl, hv, ih]
          · simp [scanNotifications, hl, hv, ih]

theorem scanNotifications_filterMap (calls : List (K × H)) :
    ∀ rows : List (K × H),
      (scanNotifications rows calls).filterMap NotifiedState.toStateChange =
        drainTrueSpecObserved rows calls := by
  induction calls with
  | nil => intro rows; simp [scanNotifications, drainTrueSpecObserved]
  | cons c cs ih =>
      intro rows
      obtain ⟨k, h⟩ := c
      cases hl : lookupRow rows k with
      | none =>
          simp [scanNotifications, hl, drainTrueSpecObserved,
            NotifiedState.toStateChange, ih]
      | some v =>
          by_cases hv : v = h
          · simp [scanNotifications, hl, hv, drainTrueSpecObserved,
              NotifiedState.toStateChange, ih]
          · simp [scanNotifications, hl, hv, drainTrueSpecObserved,
              NotifiedState.toStateChange, ih]

theorem scanRows_keys (calls : List (K × H)) :
    ∀ rows : List (K × H),
      ∃ ext : List K,
        (scanRows rows calls).map Prod.fst = rows.map Prod.fst ++ ext
          ∧ ∀ x ∈ ext, x ∈ calls.map Prod.fst := by
  induction calls with
  | nil => intro rows; exact ⟨[], by simp [scanRows], by simp⟩
  | cons c cs ih =>
      intro rows
      obtain ⟨k, h⟩ := c
      cases hl : lookupRow rows k with
      | none =>
          obtain ⟨ext, hext, hmem⟩ := ih (rows ++ [(k, h)])
          refine ⟨k :: ext, ?_, ?_⟩
          · simp [scanRows, hl, hext]
          · intro x hx
            rcases List.mem_cons.mp hx with hx1 | hx1
            · subst hx1; simp
            · simp only [List.map_cons, List.mem_cons]
              exact Or.inr (hmem x hx1)
      | some v =>
          by_cases hv : v = h
          · obtain ⟨ext, hext, hmem⟩ := ih rows
            refine ⟨ext, by simp [scanRows, hl, hv, hext], ?_⟩
            intro x hx
            simp only [List.map_cons, List.mem_cons]
            exact Or.inr (hmem x hx)
          · obtain ⟨ext, hext, hmem⟩ := ih (updateRow rows k h)
            refine ⟨ext, ?_, ?_⟩
            · simp [scanRows, hl, hv, hext, updateRow_map_fst]
            · intro x hx
              simp only [List.map_cons, List.mem_cons]
              exact Or.inr (hmem x hx)

theorem drain_true_eq (s : DefaultTableState K H) :
    s.drain true =
      (drainLoop s.changes (s.rows.map Prod.fst)).1
        ++ (drainLoop s.changes (s.rows.map Prod.fst)).2.map
          StateChange.Delete :=
  rfl

theorem drain_false_eq (s : DefaultTableState K H) :
    s.drain false =
      (drainLoop s.changes []).1
        ++ (drainLoop s.changes []).2.map StateChange.Delete :=
  rfl

/-- C1: for every finite sequence of `set_row(k, h)` calls on a
`DefaultTableState` followed by `drain(true)`, the emitted changes are
exactly `New(k)` for each call that newly inserts its key, `Update(k)`
for each call whose stored hash differed (in observation order, `None`
suppressed), followed by `Delete(k)` for each key previously stored but
never set during the scan.  The trailing deletions come after all
observed changes; the embedding fixes their (unspecified) relative order
to the row-map order. -/
theorem drain_true_characterization (th : Option Nat)
    (rows0 calls : List (K × H)) :
    (applyCalls calls (DefaultTableState.new th rows0)).drain true =
      drainTrueSpecObserved rows0 calls
        ++ (drainTrueSpecDeleted rows0 calls).map StateChange.Delete := by
  have hch : (applyCalls calls (DefaultTableState.new th rows0)).changes =
      scanNotifications rows0 calls := by
    simpa [DefaultTableState.new] using
      applyCalls_changes calls (DefaultTableState.new th rows0)
  have hrw : (applyCalls calls (DefaultTableState.new th rows0)).rows =
      scanRows rows0 calls := by
    simpa [DefaultTableState.new] using
      applyCalls_rows calls (DefaultTableState.new th rows0)
  rw [drain_true_eq, hch, hrw, drainLoop_fst, drainLoop_snd,
    scanNotifications_filterMap, scanNotifications_keys]
  congr 1
  obtain ⟨ext, hext, hmem⟩ := scanRows_keys calls rows0
  rw [hext, List.filter_append]
  have hnil :
      ext.filter (fun k => decide (¬ k ∈ calls.map Prod.fst)) = [] := by
    rw [List.filter_eq_nil_iff]
    intro x hx
    simp [hmem x hx]
  rw [hnil, List.append_nil]
  rfl

theorem drain_false_delete_not_mem (th : Option Nat)
    (rows0 calls : List (K × H)) (k : K) :
    StateChange.Delete k ∉
      (applyCalls calls (DefaultTableState.new th rows0)).drain false := by
  have hch : (applyCalls calls (DefaultTableState.new th rows0)).changes =
      scanNotifications rows0 calls := by
    simpa [DefaultTableState.new] using
      applyCalls_changes calls (DefaultTableState.new th rows0)
  rw [drain_false_eq, hch, drainLoop_fst, drainLoop_snd]
  intro hmem
  simp only [List.filter_nil, List.map_nil, List.append_nil,
    List.mem_filterMap] at hmem
  obtain ⟨n, hn, hsome⟩ := hmem
  cases n with
  | None k0 => simp [NotifiedState.toStateChange] at hsome
  | New k0 => simp [NotifiedState.toStateChange] at hsome
  | Update k0 => simp [NotifiedState.toStateChange] at hsome
  | Delete k0 => exact scanNotifications_no_delete calls rows0 k0 hn

/-- C2: a partial drain (`drain(false)`) never emits a deletion, for any
prior rows and any sequence of `set_row` calls: `set_row` never records a
`Delete` transition, and with `delete_remainder = false` the unseen set
starts empty, so keys present in `rows` but unvisited during the scan are
never emitted as deletions. -/
theorem drain_false_no_deletes (th : Option Nat)
    (rows0 calls : List (K × H)) :
    ((applyCalls calls (DefaultTableState.new th rows0)).drain false).all
        (fun c => ! c.isDelete) =
      true := by
  rw [List.all_eq_true]
  intro c hc
  cases c with
  | New k => rfl
  | Update k => rfl
  | Delete k => exact absurd hc (drain_false_delete_not_mem th rows0 calls k)

/-- C4: `set_row(k, h)` appends exactly the classification of `(k, h)`
against the current rows to the pending log — `New` when the key is
absent, `None` when the stored hash equals `h`, `Update` otherwise — and
afterwards `k` is stored in `rows` with hash `h` (in every case;
in the `None` case because the stored hash already equals `h`). -/
theorem set_row_characterization (s : DefaultTableState K H) (k : K) (h : H) :
    (s.set_row k h).changes = s.changes ++ [setRowClassifySpec s.rows k h]
      ∧ lookupRow (s.set_row k h).rows k = some h := by
  cases hl : lookupRow s.rows k with
  | none =>
      refine ⟨by simp [DefaultTableState.set_row, hl, setRowClassifySpec], ?_⟩
      simp only [DefaultTableState.set_row, hl]
      exact lookupRow_append_of_none s.rows k h hl
  | some v =>
      by_cases hv : v = h
      · subst hv
        exact ⟨by simp [DefaultTableState.set_row, hl, setRowClassifySpec],
          by simp [DefaultTableState.set_row, hl]⟩
      · refine ⟨by simp [DefaultTableState.set_row, hl, hv, setRowClassifySpec],
          ?_⟩
        simp only [DefaultTableState.set_row, hl]
        simp only [if_neg hv]
        exact lookupRow_updateRow_self s.rows k h v hl

/-- C5 fails as stated: on a fresh state, `set_row(k, h1); set_row(k, h2)`
with `h1 ≠ h2` followed by `drain(true)` emits TWO changes — the second
call finds `k` already stored with `h1` and records an `Update` — not the
single `New(k)` the claim asserts.  Shown at `k = 0`, `h1 = 0`, `h2 = 1`. -/
theorem duplicate_set_row_counterexample :
    (applyCalls [((0 : Nat), (0 : Nat)), (0, 1)]
        (DefaultTableState.defaultState : DefaultTableState Nat Nat)).drain
        true =
      [StateChange.New 0, StateChange.Update 0]
    ∧ ¬ (applyCalls [((0 : Nat), (0 : Nat)), (0, 1)]
        (DefaultTableState.defaultState : DefaultTableState Nat Nat)).drain
        true =
      [StateChange.New 0] := by
  constructor
  · rfl
  · decide

/-- C5 amended: `set_row(k, h1); set_row(k, h2)` with `h1 ≠ h2` on a fresh
state drains (with `delete_remainder = true`) to exactly two changes,
`New(k)` followed by `Update(k)`, and the stored hash reflects the
last-written `h2`. -/
theorem duplicate_set_row_amended (k : K) (h1 h2 : H) (hne : h1 ≠ h2) :
    (applyCalls [(k, h1), (k, h2)]
        (DefaultTableState.defaultState : DefaultTableState K H)).drain true =
      [StateChange.New k, StateChange.Update k]
    ∧ lookupRow
        (applyCalls [(k, h1), (k, h2)]
          (DefaultTableState.defaultState : DefaultTableState K H)).rows k =
      some h2 := by
  have hstep :
      applyCalls [(k, h1), (k, h2)]
          (DefaultTableState.defaultState : DefaultTableState K H) =
        ⟨none, [(k, h2)],
          [NotifiedState.New k, NotifiedState.Update k]⟩ := by
    show ((DefaultTableState.defaultState : DefaultTableState K H).set_row k
        h1).set_row k h2 = _
    simp [DefaultTableState.defaultState, DefaultTableState.new,
      DefaultTableState.set_row, lookupRow, updateRow, hne]
  rw [hstep]
  constructor
  · rw [drain_true_eq]
    simp [drainLoop, lookupRow]
  · simp [lookupRow]

/-- Closed instance of the amended C5 statement at `k = 0`, `h1 = 0`,
`h2 = 1`. -/
theorem duplicate_set_row_amended_witness :
    (applyCalls [((0 : Nat), (0 : Nat)), (0, 1)]
        (DefaultTableState.defaultState : DefaultTableState Nat Nat)).drain
        true =
      [StateChange.New 0, StateChange.Update 0]
    ∧ lookupRow
        (applyCalls [((0 : Nat), (0 : Nat)), (0, 1)]
          (DefaultTableState.defaultState : DefaultTableState Nat Nat)).rows
        0 =
      some 1 :=
  duplicate_set_row_amended 0 0 1 (by decide)

end TableStateProofs

section LifetimeProofs

/-- C9: the `AppLifetime` tokens form the hierarchy
natural ⊇ graceful ⊇ abort — in every token state, `abort` cancelled
implies `graceful` cancelled and `graceful` cancelled implies `natural`
cancelled — and the shutdown supervisor cancels `natural`, then
`graceful`, then `abort` in that strict order: after step 1 only
`natural` is cancelled, after step 2 `graceful` but not yet `abort`, and
step 3 cancels `abort` (which cascades to everything). -/
theorem app_lifetime_ladder :
    (∀ t : LifetimeTokens,
        (abortCancelled t = true → gracefulCancelled t = true)
        ∧ (gracefulCancelled t = true → naturalCancelled t = true))
    ∧ (naturalCancelled ladderAfterNatural = true
        ∧ gracefulCancelled ladderAfterNatural = false
        ∧ gracefulCancelled ladderAfterGraceful = true
        ∧ abortCancelled ladderAfterGraceful = false
        ∧ abortCancelled ladderAfterAbort = true
        ∧ naturalCancelled ladderAfterAbort = true
        ∧ gracefulCancelled ladderAfterAbort = true) := by
  constructor
  · intro t
    obtain ⟨a, g, n⟩ := t
    constructor <;>
      (cases a <;> cases g <;> cases n <;>
        simp [abortCancelled, gracefulCancelled, naturalCancelled])
  · decide

/-- Closed instance of C9: the hierarchy implications applied to the
token state in which only the `abort` flag is set (cancelling the root
cancels every descendant). -/
theorem app_lifetime_ladder_witness :
    gracefulCancelled ⟨true, false, false⟩ = true
    ∧ naturalCancelled ⟨true, false, false⟩ = true := by
  have hg := (app_lifetime_ladder.1 ⟨true, false, false⟩).1 (by decide)
  exact ⟨hg, (app_lifetime_ladder.1 ⟨true, false, false⟩).2 hg⟩

end LifetimeProofs

section FsProofs

theorem State.set_row_tablehash (s : State) (id hash : Nat) :
    (s.set_row id hash).tablehash = s.tablehash := by
  cases hl : lookupRow s.rowhash id <;> simp [State.set_row, hl]

theorem eraseRow_subset {K H : Type} [DecidableEq K]
    (rows : List (K × H)) (k : K) :
    ∀ x ∈ eraseRow rows k, x ∈ rows := by
  induction rows with
  | nil => intro x hx; simp [eraseRow] at hx
  | cons p rest ih =>
      intro x hx
      obtain ⟨k0, v⟩ := p
      by_cases hk : k = k0
      · simp only [eraseRow, if_pos hk] at hx
        exact List.mem_cons_of_mem _ hx
      · simp only [eraseRow, if_neg hk, List.mem_cons] at hx
        rcases hx with hx | hx
        · exact hx ▸ List.mem_cons_self _ _
        · exact List.mem_cons_of_mem _ (ih x hx)

theorem reportLoop_tablehash (changes : List (RowState × Option FileChange)) :
    ∀ (former newState : State) (pub : List (List Nat)),
      (reportLoop former newState pub changes).2.1.tablehash =
        newState.tablehash := by
  induction changes with
  | nil => intro f n p; rfl
  | cons c rest ih =>
      intro f n p
      obtain ⟨row, message⟩ := c
      cases message with
      | none =>
          simp only [reportLoop]
          rw [ih, State.set_row_tablehash]
      | some m =>
          simp only [reportLoop]
          split <;> rw [ih, State.set_row_tablehash]

theorem reportLoop_former_sub (changes : List (RowState × Option FileChange)) :
    ∀ (former newState : State) (pub : List (List Nat)),
      ∀ x ∈ (reportLoop former newState pub changes).1.rowhash,
        x ∈ former.rowhash := by
  induction changes with
  | nil => intro f n p x hx; exact hx
  | cons c rest ih =>
      intro f n p x hx
      obtain ⟨row, message⟩ := c
      have hpop : ∀ y ∈ (f.pop_row row.id).2.rowhash, y ∈ f.rowhash := by
        intro y hy
        exact eraseRow_subset f.rowhash row.id y hy
      cases message with
      | none =>
          simp only [reportLoop] at hx
          exact hpop x (ih _ _ _ x hx)
      | some m =>
          simp only [reportLoop] at hx
          split at hx <;> exact hpop x (ih _ _ _ x hx)

theorem reportLoop_pub_mem (changes : List (RowState × Option FileChange)) :
    ∀ (former newState : State) (pub : List (List Nat)) (b : List Nat),
      b ∈ (reportLoop former newState pub changes).2.2 →
        b ∈ pub
          ∨ ∃ row m, (row, some m) ∈ changes ∧ b = utf8Bytes m.path := by
  induction changes with
  | nil => intro f n p b hb; exact Or.inl hb
  | cons c rest ih =>
      intro f n p b hb
      obtain ⟨row, message⟩ := c
      cases message with
      | none =>
          simp only [reportLoop] at hb
          rcases ih _ _ _ b hb with h | ⟨r0, m0, hmem, hbeq⟩
          · exact Or.inl h
          · exact Or.inr ⟨r0, m0, List.mem_cons_of_mem _ hmem, hbeq⟩
      | some m =>
          simp only [reportLoop] at hb
          split at hb
          · rcases ih _ _ _ b hb with h | ⟨r0, m0, hmem, hbeq⟩
            · rcases List.mem_append.mp h with h1 | h1
              · exact Or.inl h1
              · refine Or.inr ⟨row, m, List.mem_cons_self _ _, ?_⟩
                simpa using h1
            · exact Or.inr ⟨r0, m0, List.mem_cons_of_mem _ hmem, hbeq⟩
          · rcases ih _ _ _ b hb with h | ⟨r0, m0, hmem, hbeq⟩
            · exact Or.inl h
            · exact Or.inr ⟨r0, m0, List.mem_cons_of_mem _ hmem, hbeq⟩

/-- C3 fails on the code (S4 scenario): prior state
`a→100, b→200, c→300` (ids 1, 2, 3 under `hasherABC`); the walk observes
only `a` before the cancellation token fires, yet `check_and_report_files`
still publishes the delete bodies for the unvisited rows `b` (id 2) and
`c` (id 3) — the former-state drain runs unconditionally, with no
cancelled/partial-scan path. -/
theorem cancelled_scan_publishes_deletes :
    check_and_report_files hasherABC "r"
        (FsNode.dir "r" 0
          [FsNode.file "a" 100, FsNode.file "b" 200, FsNode.file "c" 300])
        (some 2) ⟨none, [(1, 100), (2, 200), (3, 300)]⟩ =
      .ok (⟨none, [(1, 100)]⟩, [bytesBE 2, bytesBE 3]) := by
  simp [check_and_report_files, checkAndReportWith, FileChangeDetector.new,
    FileChangeDetector.with_recursive, FileChangeDetector.with_child_changes,
    FileChangeDetector.tablehash, tablehashSkip, FileChangeDetector.rowhash,
    rowhashWalk, rowhashWalkGo, walkStackSize, fsNodeSize, fsListSize, entryLoop, isCancelledNow, readDirOf, State.empty, State.row,
    State.table, State.pop_row, State.set_row, State.drainAll,
    lookupRow, updateRow, eraseRow, joinPath, FsNode.name, FsNode.mtime,
    FsNode.isDir, reportLoop, hasherABC]

/-- C6 fails on the code: the row id handed to the state is the
`DefaultHasher` hash of the entry's file NAME alone, not of the full
path.  With two directories `r/a` and `r/b` each holding a file `x`, the
two files produce rows with the SAME id `hashFn x` (while their message
paths `r/b/x` and `r/a/x` differ), for every hash function — so
same-named files in different directories collide into one tracked row. -/
theorem rowkey_is_name_hash_not_path (hashFn : String → Nat) :
    (((FileChangeDetector.new "r").with_recursive true).with_child_changes
          true).rowhash hashFn
        (FsNode.dir "r" 0
          [FsNode.dir "a" 10 [FsNode.file "x" 1],
           FsNode.dir "b" 20 [FsNode.file "x" 2]])
        State.empty none =
      .ok [(⟨hashFn "a", 10⟩, some ⟨"r/a", 10⟩),
           (⟨hashFn "b", 20⟩, some ⟨"r/b", 20⟩),
           (⟨hashFn "x", 2⟩, some ⟨"r/b/x", 2⟩),
           (⟨hashFn "x", 1⟩, some ⟨"r/a/x", 1⟩)]
    ∧ (("r/b/x" : String) == "r/a/x") = false := by
  constructor
  · simp [FileChangeDetector.rowhash, FileChangeDetector.new,
      FileChangeDetector.with_recursive, FileChangeDetector.with_child_changes,
      rowhashWalk, rowhashWalkGo, walkStackSize, fsNodeSize, fsListSize, entryLoop, isCancelledNow, readDirOf, State.empty,
      State.row, lookupRow, joinPath, FsNode.name, FsNode.mtime, FsNode.isDir]
  · decide

/-- C8 fails on the code: an unreadable root directory makes `rowhash`
panic (the `read_dir(..).unwrap()` call), modelled as the error outcome —
there is no `Faulted(reason)` result (no such type exists in the source),
and the panic propagates out of `check_and_report_files`, killing the
iteration task instead of reporting a fault. -/
theorem io_error_panics_rowhash :
    (((FileChangeDetector.new "r").with_recursive true).with_child_changes
          true).rowhash (fun _ => 0) (FsNode.dirUnreadable "r" 0) State.empty
        none =
      .error "read_dir failed: unwrap on an Err value panicked"
    ∧ check_and_report_files (fun _ => 0) "r" (FsNode.dirUnreadable "r" 0)
        none State.empty =
      .error "read_dir failed: unwrap on an Err value panicked" := by
  constructor
  · simp [FileChangeDetector.rowhash, FileChangeDetector.new,
      FileChangeDetector.with_recursive, FileChangeDetector.with_child_changes,
      rowhashWalk, rowhashWalkGo, walkStackSize, fsNodeSize, fsListSize, isCancelledNow, readDirOf]
  · simp [check_and_report_files, checkAndReportWith, FileChangeDetector.new,
      FileChangeDetector.with_recursive, FileChangeDetector.with_child_changes,
      FileChangeDetector.tablehash, tablehashSkip, FileChangeDetector.rowhash,
      rowhashWalk, rowhashWalkGo, walkStackSize, fsNodeSize, fsListSize, isCancelledNow, readDirOf, State.empty, State.table]

/-- C7 fails as stated: a deletion's published body is NOT the UTF-8
bytes of the key under the same rule as `New`/`Update`.  With a prior
state holding the row id 5 (previously scanned at key path `r/old`) and a
now-empty root directory, the delete publishes the eight big-endian bytes
of the u64 id — `[0,0,0,0,0,0,0,5]` — which differ from the UTF-8 bytes
of any key string such as `r/old`. -/
theorem delete_body_encoding_counterexample :
    check_and_report_files (fun _ => 0) "r" (FsNode.dir "r" 0 []) none
        ⟨none, [(5, 100)]⟩ =
      .ok (State.empty, [bytesBE 5])
    ∧ bytesBE 5 = [0, 0, 0, 0, 0, 0, 0, 5]
    ∧ bytesBE 5 ≠ utf8Bytes "r/old" := by
  refine ⟨?_, by decide, by decide⟩
  simp [check_and_report_files, checkAndReportWith, FileChangeDetector.new,
    FileChangeDetector.with_recursive, FileChangeDetector.with_child_changes,
    FileChangeDetector.tablehash, tablehashSkip, FileChangeDetector.rowhash,
    rowhashWalk, rowhashWalkGo, walkStackSize, fsNodeSize, fsListSize, entryLoop, isCancelledNow, readDirOf, State.empty, State.row,
    State.table, State.drainAll, lookupRow, reportLoop]

/-- C7 amended: every message body published by `check_and_report_files`
is either the UTF-8 bytes of the full path string of an observed change
(the `New`/`Update` case), or the eight big-endian bytes of a previously
stored row id (the deletion case) — deletions are encoded as raw id
bytes, not as key strings. -/
theorem published_body_encoding (detTable : Option Nat)
    (hashFn : String → Nat) (rootName : String) (rootNode : FsNode)
    (cancelAt : Option Nat) (st newSt : State) (pub : List (List Nat))
    (hok : checkAndReportWith detTable hashFn rootName rootNode cancelAt st =
      .ok (newSt, pub)) :
    ∀ b ∈ pub,
      (∃ changes row m,
          (((FileChangeDetector.new rootName).with_recursive
                true).with_child_changes true).rowhash hashFn rootNode st
              cancelAt =
            .ok changes
          ∧ (row, some m) ∈ changes ∧ b = utf8Bytes m.path)
      ∨ ∃ id h, (id, h) ∈ st.rowhash ∧ b = bytesBE id := by
  intro b hb
  unfold checkAndReportWith at hok
  cases hskip : tablehashSkip detTable st with
  | true =>
      rw [hskip] at hok
      simp only [if_true, Except.ok.injEq, Prod.mk.injEq] at hok
      rw [← hok.2] at hb
      simp at hb
  | false =>
      rw [hskip] at hok
      simp only [Bool.false_eq_true, if_false] at hok
      cases hr : (((FileChangeDetector.new rootName).with_recursive
          true).with_child_changes true).rowhash hashFn rootNode st cancelAt with
      | error e => rw [hr] at hok; simp at hok
      | ok changes =>
          rw [hr] at hok
          simp only [Except.ok.injEq, Prod.mk.injEq] at hok
          rw [← hok.2] at hb
          rcases List.mem_append.mp hb with hb1 | hb1
          · rcases reportLoop_pub_mem changes st State.empty [] b hb1 with
              h | ⟨row, m, hmem, hbeq⟩
            · simp at h
            · exact Or.inl ⟨changes, row, m, rfl, hmem, hbeq⟩
          · simp only [State.drainAll, List.mem_map] at hb1
            obtain ⟨p, hp, hbeq⟩ := hb1
            have hsub := reportLoop_former_sub changes st State.empty [] p hp
            exact Or.inr ⟨p.1, p.2, hsub, hbeq.symm⟩

/-- Closed instance of the amended C7 statement: in the
counterexample run the single published body `bytesBE 5` is the
big-endian encoding of the previously stored row id 5. -/
theorem published_body_encoding_witness :
    (∃ changes row m,
        (((FileChangeDetector.new "r").with_recursive
              true).with_child_changes true).rowhash (fun _ => 0)
            (FsNode.dir "r" 0 []) (⟨none, [(5, 100)]⟩ : State) none =
          .ok changes
        ∧ (row, some m) ∈ changes ∧ bytesBE 5 = utf8Bytes m.path)
    ∨ ∃ id h, (id, h) ∈ (⟨none, [(5, 100)]⟩ : State).rowhash
        ∧ bytesBE 5 = bytesBE id := by
  refine published_body_encoding none (fun _ => 0) "r" (FsNode.dir "r" 0 [])
    none (⟨none, [(5, 100)]⟩ : State) State.empty [bytesBE 5] ?_ (bytesBE 5)
    (by simp)
  simp [checkAndReportWith, FileChangeDetector.new,
    FileChangeDetector.with_recursive, FileChangeDetector.with_child_changes,
    tablehashSkip, FileChangeDetector.rowhash, rowhashWalk, rowhashWalkGo, walkStackSize, fsNodeSize, fsListSize, entryLoop,
    isCancelledNow, readDirOf, State.empty, State.row, State.table,
    State.drainAll, lookupRow, reportLoop]

/-- C10: an iteration of `check_and_report_files` that takes the rebuild
path (the fast-path skip did not fire) leaves a state whose table hash is
`None` — the state is replaced by `State::empty` and rebuilt only through
`set_row`, which never writes the table hash — so the tablehash fast-path
cannot trigger on any following iteration, for any detector table hash.
Moreover every `State` the program can build at all has table hash
`None`, since `State::empty` is its only constructor. -/
theorem iteration_leaves_tablehash_none (detTable : Option Nat)
    (hashFn : String → Nat) (rootName : String) (rootNode : FsNode)
    (cancelAt : Option Nat) (st newSt : State) (pub : List (List Nat))
    (hskip : tablehashSkip detTable st = false)
    (hok : checkAndReportWith detTable hashFn rootName rootNode cancelAt st =
      .ok (newSt, pub)) :
    newSt.table = none
      ∧ (∀ dt : Option Nat, tablehashSkip dt newSt = false)
      ∧ (∀ s : State, State.Reachable s → s.table = none) := by
  have hreach : ∀ s : State, State.Reachable s → s.table = none := by
    intro s hs
    induction hs with
    | empty => rfl
    | @set_row s0 id hash _ ih =>
        show (s0.set_row id hash).tablehash = none
        rw [State.set_row_tablehash]
        exact ih
    | pop_row id _ ih => exact ih
    | drain _ ih => exact ih
  have htable : newSt.table = none := by
    unfold checkAndReportWith at hok
    rw [hskip] at hok
    simp only [Bool.false_eq_true, if_false] at hok
    cases hr : (((FileChangeDetector.new rootName).with_recursive
        true).with_child_changes true).rowhash hashFn rootNode st cancelAt with
    | error e => rw [hr] at hok; simp at hok
    | ok changes =>
        rw [hr] at hok
        simp only [Except.ok.injEq, Prod.mk.injEq] at hok
        rw [← hok.1]
        show (reportLoop st State.empty [] changes).2.1.tablehash = none
        rw [reportLoop_tablehash]
        rfl
  refine ⟨htable, ?_, hreach⟩
  intro dt
  cases dt with
  | none => rfl
  | some th =>
      show (match newSt.table with
            | some t => decide (t = th)
            | none => false) = false
      rw [htable]

/-- Closed instance of C10: a completed iteration over an empty root
directory starting from `State::empty` leaves the table hash `None`, and
the fast-path skip cannot fire against it (shown for a detector table
hash of `some 5`). -/
theorem iteration_leaves_tablehash_none_witness :
    State.table State.empty = none
      ∧ tablehashSkip (some 5) State.empty = false := by
  have h := iteration_leaves_tablehash_none none (fun _ => 0) "r"
    (FsNode.dir "r" 0 []) none State.empty State.empty [] (by rfl) ?hok
  · exact ⟨h.1, h.2.1 (some 5)⟩
  case hok =>
    simp [checkAndReportWith, FileChangeDetector.new,
      FileChangeDetector.with_recursive, FileChangeDetector.with_child_changes,
      tablehashSkip, FileChangeDetector.rowhash, rowhashWalk, rowhashWalkGo, walkStackSize, fsNodeSize, fsListSize, entryLoop,
      isCancelledNow, readDirOf, State.empty, State.row, State.table,
      State.drainAll, lookupRow, reportLoop]

end FsProofs
